import Mathlib

/-!
Shallow embedding of the SymbolicMemoryMCP core (server.py and client.py).

The SQLite tables are modelled as insertion-ordered association lists with
unique keys; SQL UPDATE keeps a row's position, INSERT appends.  Floating
point scores are modelled as rationals: every similarity the code computes
is a quotient of small naturals (token-set sizes), far from the binary
rounding error of the float literals 0.10 and 0.65, so the comparisons the
claims are about coincide exactly.  The sha256 digest and the wall clock
are external inputs and are passed in as parameters.
-/

set_option allowUnsafeReducibility true
attribute [semireducible] Rat.add Rat.mul Rat.inv Rat.sub

namespace SM

/-- Association-list lookup (first binding wins), modelling a keyed SQL
SELECT against a table with a PRIMARY KEY column. -/
def alookup {β : Type} (k : String) : List (String × β) → Option β
  | [] => none
  | (k', v) :: rest => if k' = k then some v else alookup k rest

/-- Insert-or-replace keyed update: an existing key keeps its position
(SQL UPDATE / INSERT OR REPLACE), a new key is appended. -/
def aupsert {β : Type} (k : String) (v : β) : List (String × β) → List (String × β)
  | [] => [(k, v)]
  | (k', v') :: rest => if k' = k then (k, v) :: rest else (k', v') :: aupsert k v rest

/-- Model of `d[k] = d.get(k, 0.0) + x` on a Python dict: insertion order preserved,
new keys appended. -/
def bump (k : String) (x : ℚ) : List (String × ℚ) → List (String × ℚ)
  | [] => [(k, x)]
  | (k', v) :: rest => if k' = k then (k', v + x) :: rest else (k', v) :: bump k x rest

/-- Boolean list membership for strings (Python `in`). -/
def memS (x : String) : List String → Bool
  | [] => false
  | y :: ys => if y = x then true else memS x ys

/-- Remove duplicates (Python `set(...)`); order is irrelevant to the
cardinalities `jaccard` takes. -/
def dedupL : List String → List String
  | [] => []
  | x :: xs => if memS x xs then dedupL xs else x :: dedupL xs

/-- ASCII lowercase (`text.lower()`; the sources and all inputs of
interest are ASCII). -/
def lowerChar (c : Char) : Char :=
  if 'A' ≤ c && c ≤ 'Z' then Char.ofNat (c.toNat + 32) else c

/-- Python whitespace for `str.strip()`. -/
def isSpacePy (c : Char) : Bool :=
  c == ' ' || c == '\t' || c == '\n' || c == '\r' || c == '\x0b' || c == '\x0c'

/-- Model of `a.strip()`: drop leading and trailing whitespace. -/
def trimS (s : String) : String :=
  String.mk (((s.data.dropWhile isSpacePy).reverse.dropWhile isSpacePy).reverse)

/-- A character matched by the token pattern `[a-z0-9_]` (the input is
lowercased first, so the IGNORECASE flag is immaterial). -/
def isTokChar (c : Char) : Bool :=
  (('a' ≤ c) && (c ≤ 'z')) || (('0' ≤ c) && (c ≤ '9')) || (c == '_')

/-- Maximal runs of token characters (`re.findall` of `[a-z0-9_]+`);
`acc` holds the current run reversed. -/
def runsAux : List Char → List Char → List (List Char)
  | acc, [] => if acc = [] then [] else [acc.reverse]
  | acc, c :: rest =>
    if isTokChar c then runsAux (c :: acc) rest
    else if acc = [] then runsAux [] rest
    else acc.reverse :: runsAux [] rest

/-- Model of `_TOKEN_RE.findall(text.lower())`. -/
def rawTokens (text : String) : List String :=
  (runsAux [] (text.data.map lowerChar)).map (fun cs => String.mk cs)

/-- De-duplicate preserving first-occurrence order, stopping once
`maxT` distinct tokens were collected (`out` holds the result reversed). -/
def dedupToksAux (maxT : Nat) (out : List String) : List String → List String
  | [] => out.reverse
  | t :: rest =>
    if memS t out then dedupToksAux maxT out rest
    else if maxT ≤ out.length + 1 then (t :: out).reverse
    else dedupToksAux maxT (t :: out) rest

/-- Model of `tokenize(text, max_tokens)` from server.py. -/
def tokenize (text : String) (maxT : Nat) : List String :=
  dedupToksAux maxT [] (rawTokens text)

/-- Model of `jaccard(a, b)` from server.py: |A∩B| / |A∪B| over the two token sets,
0 when both are empty. -/
def jaccard (a b : List String) : ℚ :=
  let sa := dedupL a
  let sb := dedupL b
  if sa = [] && sb = [] then 0
  else
    let inter := (sa.filter (fun x => memS x sb)).length
    let union := sa.length + (sb.filter (fun x => !(memS x sa))).length
    if union = 0 then 0 else (inter : ℚ) / (union : ℚ)

/-- One row of the `texts` table. -/
structure TextRow where
  body : String
  cat : Option String
  subcat : Option String
  hash : String
  tsCreated : String
  tsUpdated : String
deriving DecidableEq, Repr

/-- The database: `texts` keyed by symbol, `aliases` mapping alias → symbol. -/
structure Store where
  texts : List (String × TextRow)
  aliases : List (String × String)
deriving DecidableEq, Repr

def emptyStore : Store := ⟨[], []⟩

/-- Model of `SaveArgs` from server.py (pydantic model). -/
structure SaveArgs where
  symbol : String
  text : String
  cat : Option String
  subcat : Option String
  aliases : Option (List String)
deriving DecidableEq, Repr

/-- The dictionary `save_text` returns. -/
structure SaveResult where
  status : String
  symbol : String
  hash : String
  tsCreated : String
  tsUpdated : String
  prevCat : Option String
  prevSubcat : Option String
deriving DecidableEq, Repr

/-- Model of `get_existing_meta(symbol)`: the stored (cat, subcat) of a symbol,
(None, None) when the row does not exist. -/
def get_existing_meta (symbol : String) (st : Store) : Option String × Option String :=
  match alookup symbol st.texts with
  | none => (none, none)
  | some row => (row.cat, row.subcat)

/-- The alias loop of `save_text`: each supplied alias is stripped,
skipped when blank, otherwise insert-or-replace mapped to the saved
symbol. -/
def saveAliases (sym : String) (al : List (String × String)) :
    List String → List (String × String)
  | [] => al
  | a :: rest =>
    let a' := trimS a
    saveAliases sym (if a' = "" then al else aupsert a' sym al) rest

/-- The row transformation of the UPDATE branch of `save_text`: body, cat,
subcat, hash and ts_updated are overwritten, ts_created is kept. -/
def updatedRow (body : String) (cat subcat : Option String) (h ts : String)
    (r : TextRow) : TextRow :=
  { r with body := body, cat := cat, subcat := subcat, hash := h, tsUpdated := ts }

/-- Model of `UPDATE texts SET ... WHERE symbol = s`: apply `f` to the row keyed
`s`, keep every other row (and all positions). -/
def updateTexts (s : String) (f : TextRow → TextRow) (l : List (String × TextRow)) :
    List (String × TextRow) :=
  l.map (fun kv => if kv.1 = s then (kv.1, f kv.2) else kv)

/-- Model of `save_text(args)` from server.py.  `sha` stands for the sha256 digest,
`ts` for `now_iso()`, both external.  Returns the result dictionary and the
mutated store. -/
def save_text (sha : String → String) (ts : String) (args : SaveArgs) (st : Store) :
    SaveResult × Store :=
  let h := sha args.text
  let prev := get_existing_meta args.symbol st
  let existed := (alookup args.symbol st.texts).isSome
  let texts1 :=
    if existed then
      updateTexts args.symbol (updatedRow args.text args.cat args.subcat h ts) st.texts
    else
      st.texts ++ [(args.symbol,
        { body := args.text, cat := args.cat, subcat := args.subcat,
          hash := h, tsCreated := ts, tsUpdated := ts })]
  let tsCreated :=
    if existed then
      match alookup args.symbol texts1 with
      | some row => row.tsCreated
      | none => ts
    else ts
  let aliases1 := saveAliases args.symbol st.aliases (args.aliases.getD [])
  ({ status := if existed then "updated" else "created",
     symbol := args.symbol, hash := h, tsCreated := tsCreated, tsUpdated := ts,
     prevCat := prev.1, prevSubcat := prev.2 },
   { texts := texts1, aliases := aliases1 })

/-- Model of `resolve_symbol(sym)`: exact symbol match first, then one-hop alias
lookup. -/
def resolve_symbol (sym : String) (st : Store) : Option String :=
  if (alookup sym st.texts).isSome then some sym
  else alookup sym st.aliases

/-- The `get` contract: resolve, then read the body (the two NotFound
branches of the resources/read handler collapse to `none`). -/
def get (symOrAlias : String) (st : Store) : Option String :=
  match resolve_symbol symOrAlias st with
  | none => none
  | some r => (alookup r st.texts).map (fun row => row.body)

/-- Python truthiness of an optional string (`if cat:`): not None and not
empty. -/
def truthy : Option String → Bool
  | none => false
  | some s => !(s = "")

/-- One entry of the `cat` suggestion group. -/
structure ScoredValue where
  value : String
  score : ℚ
deriving DecidableEq, Repr

/-- One entry of the `subcat` suggestion group (carries its cat binding). -/
structure ScoredPair where
  cat : String
  value : String
  score : ℚ
deriving DecidableEq, Repr

/-- The `suggestions` payload. -/
structure Suggestion where
  cat : List ScoredValue
  subcat : List ScoredPair
  neighbors : List (String × ℚ)
deriving DecidableEq, Repr

/-- Floor of a rational as an integer (`Int.fdiv` floors toward -∞). -/
def ratFloor (q : ℚ) : ℤ := Int.fdiv q.num q.den

/-- Round to the nearest integer, ties to even (Python `round`). -/
def roundHalfEven (q : ℚ) : ℤ :=
  let n := ratFloor q
  let frac := q - (n : ℚ)
  if frac < 1/2 then n
  else if 1/2 < frac then n + 1
  else if n % 2 = 0 then n else n + 1

/-- Model of `round(x, 4)`. -/
def round4 (q : ℚ) : ℚ := (roundHalfEven (q * 10000) : ℚ) / 10000

/-- Insert into a score-descending list, before the first element with a
score ≤ the new one, so that `sortDesc` is stable like Python `sorted`. -/
def insDesc (x : String × ℚ) : List (String × ℚ) → List (String × ℚ)
  | [] => [x]
  | y :: ys => if x.2 < y.2 then y :: insDesc x ys else x :: y :: ys

/-- Stable sort by score descending
(`sorted(..., key=lambda kv: kv[1], reverse=True)`). -/
def sortDesc : List (String × ℚ) → List (String × ℚ)
  | [] => []
  | x :: xs => insDesc x (sortDesc xs)

/-- Accumulator of the suggester's scan loop. -/
structure ScanState where
  neighbors : List (String × ℚ)
  catScores : List (String × ℚ)
  subcatScores : List (String × ℚ)
deriving DecidableEq, Repr

/-- One iteration of the scan loop in `suggest_taxonomy`. -/
def scanStep (newToks : List String) (minSim : ℚ) (st : ScanState)
    (row : String × TextRow) : ScanState :=
  if !truthy row.2.cat && !truthy row.2.subcat then st
  else
    let toks := tokenize (row.1 ++ " " ++ row.2.body) 80
    let sim := jaccard newToks toks
    if sim < minSim then st
    else
      let st1 := { st with neighbors := st.neighbors ++ [(row.1, sim)] }
      let st2 :=
        if truthy row.2.cat then
          { st1 with catScores := bump (row.2.cat.getD "") sim st1.catScores }
        else st1
      let key := (row.2.cat.getD "") ++ "::" ++ (row.2.subcat.getD "")
      if truthy row.2.cat && truthy row.2.subcat then
        { st2 with subcatScores := bump key sim st2.subcatScores }
      else st2

/-- The rows the SQL query returns: taxonomy-bearing rows (`cat IS NOT NULL
OR subcat IS NOT NULL`), scan order = table order, capped by `LIMIT`. -/
def taggedRows (st : Store) (limitRows : Nat) : List (String × TextRow) :=
  (st.texts.filter (fun kv => kv.2.cat.isSome || kv.2.subcat.isSome)).take limitRows

/-- Whether `la` starts with `lb`. -/
def startsWithL : List Char → List Char → Bool
  | _, [] => true
  | [], _ :: _ => false
  | a :: as, b :: bs => a == b && startsWithL as bs

/-- Split a character list at the first occurrence of `sep`: the part
before it and the part after it (`none` when `sep` does not occur). -/
def breakAtSep (sep : List Char) : List Char → Option (List Char × List Char)
  | [] => if sep = [] then some ([], []) else none
  | c :: rest =>
    if startsWithL (c :: rest) sep then some ([], (c :: rest).drop sep.length)
    else (breakAtSep sep rest).map (fun p => (c :: p.1, p.2))

/-- Model of `k.split("::", 1)`: the piece before the first separator and the
rest (keys are always built as cat ++ "::" ++ subcat, so the separator is
always present; without one the Python unpacking would fail). -/
def splitKey (k : String) : String × String :=
  match breakAtSep "::".data k.data with
  | some p => (String.mk p.1, String.mk p.2)
  | none => (k, "")

/-- Python `x or 1.0` on a float. -/
def orOne (q : ℚ) : ℚ := if q = 0 then 1 else q

/-- Model of `top_n(d, n)` from `suggest_taxonomy`: top n by aggregate (stable,
descending), each normalized by the sum of all aggregates (`or 1.0` guards
a zero total) and rounded to 4 places. -/
def top_n (d : List (String × ℚ)) (n : Nat) : List ScoredValue :=
  let items := (sortDesc d).take n
  let total := orOne ((d.map (fun kv => kv.2)).sum)
  items.map (fun kv => { value := kv.1, score := round4 (kv.2 / total) })

/-- The subcat group: same normalization as `top_n` but splitting the
joint key back into (cat, subcat). -/
def topSubcats (d : List (String × ℚ)) : List ScoredPair :=
  let items := (sortDesc d).take 3
  let total := orOne ((d.map (fun kv => kv.2)).sum)
  items.map (fun kv =>
    let cs := splitKey kv.1
    { cat := cs.1, value := cs.2, score := round4 (kv.2 / total) })

/-- Model of `suggest_taxonomy(symbol, text, limit_rows, min_sim)` from server.py. -/
def suggest_taxonomy (st : Store) (symbol text : String) (limitRows : Nat)
    (minSim : ℚ) : Option Suggestion :=
  let newToks := tokenize (symbol ++ " " ++ text) 80
  if newToks = [] then none
  else
    let rows := taggedRows st limitRows
    if rows = [] then none
    else
      let sst := rows.foldl (scanStep newToks minSim) ⟨[], [], []⟩
      if sst.catScores = [] && sst.subcatScores = [] then none
      else
        let neighbors := (sortDesc sst.neighbors).take 5
        let cats := top_n sst.catScores 3
        let subcats := if sst.subcatScores = [] then [] else topSubcats sst.subcatScores
        some { cat := cats, subcat := subcats,
               neighbors := neighbors.map (fun p => (p.1, round4 p.2)) }

/-- Result of the resources/read endpoint. -/
inductive ReadResult where
  | protocolFault
  | notFound
  | contents (uri : String) (text : String)
deriving DecidableEq, Repr

/-- Substring containment over character lists (Python `sub in s`). -/
def containsSub (sub : List Char) : List Char → Bool
  | [] => startsWithL [] sub
  | c :: rest => startsWithL (c :: rest) sub || containsSub sub rest

/-- Model of `"://" in uri`: the only URI shape check the handler performs. -/
def hasSchemeSep (uri : String) : Bool :=
  containsSub "://".data uri.data

/-- The characters after the last slash, accumulated in reverse. -/
def lastSegAux (acc : List Char) : List Char → List Char
  | [] => acc.reverse
  | c :: rest => if c = '/' then lastSegAux [] rest else lastSegAux (c :: acc) rest

/-- Model of `uri.split("/")[-1]`: the suffix after the last slash (the whole
string when there is none). -/
def lastSegment (uri : String) : String :=
  String.mk (lastSegAux [] uri.data)

/-- The resources/read branch of the `mcp` endpoint: HTTPException 400 on a
malformed uri (ProtocolFault), 404 when unresolved (NotFound), else the
body wrapped in one content descriptor. -/
def resources_read (uri : String) (st : Store) : ReadResult :=
  if !hasSchemeSep uri then ReadResult.protocolFault
  else
    let symbol := lastSegment uri
    match resolve_symbol symbol st with
    | none => ReadResult.notFound
    | some resolved =>
      match alookup resolved st.texts with
      | none => ReadResult.notFound
      | some row => ReadResult.contents uri row.body

/-- The fixed resource scheme the client uses (client.py `cmd_get`):
`resource://sm/v1/texts/<symbol>`. -/
def texts_uri (symbol : String) : String := "resource://sm/v1/texts/" ++ symbol

/-- The tools/call save branch of the `mcp` endpoint: save first, then run
the suggester (against the mutated store) only when cat or subcat `is
None`; a suggestion is attached only when present. -/
def mcp_save (sha : String → String) (ts : String) (args : SaveArgs) (st : Store) :
    SaveResult × Option Suggestion × Store :=
  let r := save_text sha ts args st
  let suggestions :=
    if args.cat.isNone || args.subcat.isNone then
      suggest_taxonomy r.2 args.symbol args.text 2000 (1/10)
    else none
  (r.1, suggestions, r.2)

/-- The persisted `.sm_last_apply.json` record. -/
structure ApplyRecord where
  symbol : String
  prev_cat : Option String
  prev_subcat : Option String
  new_cat : Option String
  new_subcat : Option String
  score : ℚ
deriving DecidableEq, Repr

/-- The Undo branch of `cmd_save` (client.py): if no record, report
"nothing to undo" and mutate nothing; else issue a save for the record's
symbol with cat/subcat reverted to the record's previous values, the text
taken from the current DEFINE block, aliases from the current input.  The
record file is only read, never cleared. -/
def undo_step (sha : String → String) (ts : String) (blkBody : String)
    (blkAliases : Option (List String)) (slot : Option ApplyRecord) (st : Store) :
    Store × Option ApplyRecord :=
  match slot with
  | none => (st, none)
  | some last =>
    let args : SaveArgs :=
      { symbol := last.symbol, text := blkBody, cat := last.prev_cat,
        subcat := last.prev_subcat, aliases := blkAliases }
    ((save_text sha ts args st).2, slot)

/-- The matching-pair loop in `_pick_top_suggestion`: first pair whose cat
equals the (truthy) top cat. -/
def findMatchingPair (tc : Option String) : List ScoredPair → Option ScoredPair
  | [] => none
  | s :: rest => if truthy tc && (s.cat = tc.getD "") then some s else findMatchingPair tc rest

/-- Model of `_pick_top_suggestion(suggestions)` from client.py, returning
(cat, subcat, combined score).  Python `x or y` on floats is modelled as
`if x ≠ 0 then x else y`; `min(a or 0.0, b or 0.0)` collapses to `min a b`. -/
def pick_top_suggestion (sug : Suggestion) : Option String × Option String × ℚ :=
  let topCat0 : Option String := sug.cat.head?.map (fun sv => sv.value)
  let topCatScore0 : ℚ :=
    match sug.cat.head? with
    | some sv => sv.score
    | none => 0
  let sel :=
    match sug.subcat with
    | [] => (topCat0, topCatScore0, (none : Option String), (0 : ℚ))
    | s0 :: _ =>
      match findMatchingPair topCat0 sug.subcat with
      | some s => (topCat0, topCatScore0, some s.value, s.score)
      | none =>
        if !(s0.cat = "") then
          (some s0.cat,
           if topCatScore0 ≠ 0 then topCatScore0 else s0.score,
           some s0.value, s0.score)
        else
          (topCat0, topCatScore0, some s0.value, s0.score)
  let score :=
    if truthy sel.1 && truthy sel.2.2.1 then min sel.2.1 sel.2.2.2
    else if sel.2.1 ≠ 0 then sel.2.1
    else sel.2.2.2
  (sel.1, sel.2.2.1, score)

/-- The default answer `_prompt_apply` presents: "Y" when the combined
score reaches MIN_SCORE = 0.65, else "n". -/
def prompt_apply_default (score : ℚ) : String :=
  if 65/100 ≤ score then "Y" else "n"

/-! ### Association-list lemmas -/

theorem alookup_aupsert_self {β : Type} (k : String) (v : β) (l : List (String × β)) :
    alookup k (aupsert k v l) = some v := by
  induction l with
  | nil => simp [aupsert, alookup]
  | cons hd tl ih =>
    obtain ⟨k', v'⟩ := hd
    by_cases h : k' = k
    · simp [aupsert, h, alookup]
    · simp [aupsert, h, alookup, ih]

theorem alookup_aupsert_ne {β : Type} {a k : String} (v : β) (l : List (String × β))
    (h : a ≠ k) : alookup a (aupsert k v l) = alookup a l := by
  have hka : ¬(k = a) := fun hh => h hh.symm
  induction l with
  | nil => simp [aupsert, alookup, hka]
  | cons hd tl ih =>
    obtain ⟨k', v'⟩ := hd
    by_cases hk : k' = k
    · subst hk
      simp [aupsert, alookup, hka]
    · by_cases ha : k' = a
      · simp [aupsert, if_neg hk, alookup, ha, h]
      · simp [aupsert, if_neg hk, alookup, ha, ih]

theorem alookup_aupsert_cases {β : Type} {a k : String} {v w : β} {l : List (String × β)}
    (h : alookup a (aupsert k v l) = some w) :
    (a = k ∧ w = v) ∨ alookup a l = some w := by
  by_cases hak : a = k
  · subst hak
    rw [alookup_aupsert_self] at h
    exact Or.inl ⟨rfl, (Option.some_inj.mp h).symm⟩
  · rw [alookup_aupsert_ne v l hak] at h
    exact Or.inr h

theorem alookup_append_of_some {β : Type} {k : String} {v : β} {l₁ l₂ : List (String × β)}
    (h : alookup k l₁ = some v) : alookup k (l₁ ++ l₂) = some v := by
  induction l₁ with
  | nil => simp [alookup] at h
  | cons hd tl ih =>
    by_cases hk : hd.1 = k
    · simpa [alookup, hk] using h
    · rw [alookup, if_neg hk] at h
      simpa [alookup, hk] using ih h

theorem alookup_append_of_none {β : Type} {k : String} {l₁ l₂ : List (String × β)}
    (h : alookup k l₁ = none) : alookup k (l₁ ++ l₂) = alookup k l₂ := by
  induction l₁ with
  | nil => simp
  | cons hd tl ih =>
    by_cases hk : hd.1 = k
    · rw [alookup, if_pos hk] at h
      exact absurd h (by simp)
    · rw [alookup, if_neg hk] at h
      simpa [alookup, hk] using ih h

theorem updateTexts_nil (s : String) (f : TextRow → TextRow) :
    updateTexts s f [] = [] := rfl

theorem updateTexts_cons (s : String) (f : TextRow → TextRow) (hd : String × TextRow)
    (tl : List (String × TextRow)) :
    updateTexts s f (hd :: tl) =
      (if hd.1 = s then (hd.1, f hd.2) else hd) :: updateTexts s f tl := rfl

/-- Lookup through the UPDATE-branch row map: the updated symbol's row is
transformed, every other row untouched. -/
theorem alookup_updateTexts {k s : String} (f : TextRow → TextRow)
    (l : List (String × TextRow)) :
    alookup k (updateTexts s f l) =
      if k = s then (alookup k l).map f else alookup k l := by
  induction l with
  | nil => by_cases h : k = s <;> simp [updateTexts_nil, alookup, h]
  | cons hd tl ih =>
    rw [updateTexts_cons]
    by_cases hs : hd.1 = s
    · rw [if_pos hs]
      by_cases hk : hd.1 = k
      · have hks : k = s := (hk.symm).trans hs
        simp only [alookup, if_pos hk, if_pos hks]
        rfl
      · have hks : ¬(k = s) := fun hh => hk (by rw [hs, hh])
        simp only [alookup, if_neg hk, if_neg hks, ih]
    · rw [if_neg hs]
      by_cases hk : hd.1 = k
      · have hks : ¬(k = s) := fun hh => hs (by rw [hk, hh])
        simp only [alookup, if_pos hk, if_neg hks]
      · simp only [alookup, if_neg hk, ih]

theorem mem_of_alookup_some {β : Type} {k : String} {v : β} {l : List (String × β)}
    (h : alookup k l = some v) : (k, v) ∈ l := by
  induction l with
  | nil => simp [alookup] at h
  | cons hd tl ih =>
    obtain ⟨k', v'⟩ := hd
    by_cases hk : k' = k
    · subst hk
      rw [alookup, if_pos rfl, Option.some_inj] at h
      subst h
      exact List.mem_cons_self _ _
    · rw [alookup, if_neg hk] at h
      exact List.mem_cons_of_mem _ (ih h)

/-! ### save_text row lemmas -/

/-- After a save, the saved symbol's row holds exactly the saved body,
cat and subcat. -/
theorem alookup_save_self (sha : String → String) (ts : String) (args : SaveArgs)
    (st : Store) :
    ∃ row, alookup args.symbol (save_text sha ts args st).2.texts = some row ∧
      row.body = args.text ∧ row.cat = args.cat ∧ row.subcat = args.subcat := by
  simp only [save_text]
  cases h : alookup args.symbol st.texts with
  | none =>
    refine ⟨{ body := args.text, cat := args.cat, subcat := args.subcat,
              hash := sha args.text, tsCreated := ts, tsUpdated := ts },
            ?_, rfl, rfl, rfl⟩
    simp only [h, Option.isSome_none, Bool.false_eq_true, if_false]
    rw [alookup_append_of_none h]
    simp [alookup]
  | some row =>
    refine ⟨updatedRow args.text args.cat args.subcat (sha args.text) ts row,
      ?_, rfl, rfl, rfl⟩
    simp only [h, Option.isSome_some, if_true]
    rw [alookup_updateTexts, if_pos rfl, h]
    rfl

/-- A save never removes a texts row: any symbol present before is present
after. -/
theorem alookup_save_mono (sha : String → String) (ts : String) (args : SaveArgs)
    (st : Store) (k : String) (h : (alookup k st.texts).isSome = true) :
    (alookup k (save_text sha ts args st).2.texts).isSome = true := by
  simp only [save_text]
  by_cases he : (alookup args.symbol st.texts).isSome = true
  · simp only [he, if_true]
    rw [alookup_updateTexts]
    by_cases hk : k = args.symbol
    · rw [if_pos hk]
      cases hh : alookup k st.texts with
      | none => rw [hh] at h; simp at h
      | some v => simp
    · rw [if_neg hk]
      exact h
  · have hfalse : (alookup args.symbol st.texts).isSome = false := by
      cases hx : (alookup args.symbol st.texts).isSome
      · rfl
      · exact absurd hx he
    simp only [hfalse, Bool.false_eq_true, if_false]
    cases hh : alookup k st.texts with
    | none => rw [hh] at h; simp at h
    | some v => rw [alookup_append_of_some hh]; rfl

theorem save_text_aliases (sha : String → String) (ts : String) (args : SaveArgs)
    (st : Store) :
    (save_text sha ts args st).2.aliases =
      saveAliases args.symbol st.aliases (args.aliases.getD []) := by
  simp only [save_text]

/-! ### Alias-loop lemmas -/

/-- A binding already mapping to the saved symbol survives the alias loop. -/
theorem saveAliases_stable {a sym : String} {al : List (String × String)}
    (l : List String) (h : alookup a al = some sym) :
    alookup a (saveAliases sym al l) = some sym := by
  induction l generalizing al with
  | nil => exact h
  | cons hd rest ih =>
    simp only [saveAliases]
    by_cases hb : trimS hd = ""
    · rw [if_pos hb]
      exact ih h
    · rw [if_neg hb]
      by_cases ha : a = trimS hd
      · subst ha
        exact ih (alookup_aupsert_self _ _ _)
      · refine ih ?_
        rw [alookup_aupsert_ne _ _ ha]
        exact h

/-- A supplied alias that is already stripped and non-blank ends up mapped
to the saved symbol. -/
theorem saveAliases_mem {a sym : String} {al : List (String × String)}
    {l : List String} (hmem : a ∈ l) (htrim : trimS a = a) (hne : ¬(a = "")) :
    alookup a (saveAliases sym al l) = some sym := by
  induction l generalizing al with
  | nil => simp at hmem
  | cons hd rest ih =>
    simp only [saveAliases]
    rcases List.mem_cons.mp hmem with heq | hmemr
    · subst heq
      rw [htrim, if_neg hne]
      exact saveAliases_stable rest (alookup_aupsert_self _ _ _)
    · exact ih hmemr

/-- Every binding after the alias loop either targets the saved symbol or
was present before. -/
theorem saveAliases_cases {a sym s₀ : String} {al : List (String × String)}
    {l : List String} (h : alookup a (saveAliases sym al l) = some s₀) :
    s₀ = sym ∨ alookup a al = some s₀ := by
  induction l generalizing al with
  | nil => exact Or.inr h
  | cons hd rest ih =>
    simp only [saveAliases] at h
    by_cases hb : trimS hd = ""
    · rw [if_pos hb] at h
      exact ih h
    · rw [if_neg hb] at h
      rcases ih h with hsym | hal
      · exact Or.inl hsym
      · rcases alookup_aupsert_cases hal with ⟨_, hv⟩ | hold
        · exact Or.inl hv
        · exact Or.inr hold

/-! ### Claim C2 -/

/-- C2: the `prev` field of every save result is the (cat, subcat) pair
stored for the symbol immediately before the save, and (None, None) when
the symbol did not yet exist. -/
theorem sm_C2 (sha : String → String) (ts : String) (args : SaveArgs) (st : Store) :
    (alookup args.symbol st.texts = none →
      (save_text sha ts args st).1.prevCat = none ∧
      (save_text sha ts args st).1.prevSubcat = none) ∧
    (∀ row, alookup args.symbol st.texts = some row →
      (save_text sha ts args st).1.prevCat = row.cat ∧
      (save_text sha ts args st).1.prevSubcat = row.subcat) := by
  constructor
  · intro h
    simp [save_text, get_existing_meta, h]
  · intro row h
    simp [save_text, get_existing_meta, h]

/-- Witness for C2 evaluated at concrete inputs: a fresh symbol reports
(None, None); re-saving a symbol whose row holds (some "c", None) reports
exactly that pair. -/
theorem sm_C2_witness :
    ((save_text (fun s => s) "t1" ⟨"A", "a", none, none, none⟩ emptyStore).1.prevCat = none ∧
     (save_text (fun s => s) "t1" ⟨"A", "a", none, none, none⟩ emptyStore).1.prevSubcat = none) ∧
    ((save_text (fun s => s) "t2" ⟨"A", "a2", none, none, none⟩
        (save_text (fun s => s) "t1" ⟨"A", "a", some "c", none, none⟩ emptyStore).2).1.prevCat
        = some "c" ∧
     (save_text (fun s => s) "t2" ⟨"A", "a2", none, none, none⟩
        (save_text (fun s => s) "t1" ⟨"A", "a", some "c", none, none⟩ emptyStore).2).1.prevSubcat
        = none) := by
  constructor
  · exact (sm_C2 (fun s => s) "t1" ⟨"A", "a", none, none, none⟩ emptyStore).1 (by decide)
  · exact (sm_C2 (fun s => s) "t2" ⟨"A", "a2", none, none, none⟩
      (save_text (fun s => s) "t1" ⟨"A", "a", some "c", none, none⟩ emptyStore).2).2
      { body := "a", cat := some "c", subcat := none, hash := "a",
        tsCreated := "t1", tsUpdated := "t1" } (by decide)

/-! ### Claim C10 -/

/-- The invariant: every alias binding targets a symbol that has a row in
the texts table. -/
def AliasInv (st : Store) : Prop :=
  ∀ a s, alookup a st.aliases = some s → (alookup s st.texts).isSome = true

/-- A save preserves the alias invariant. -/
theorem aliasInv_save (sha : String → String) (ts : String) (args : SaveArgs)
    (st : Store) (hinv : AliasInv st) : AliasInv (save_text sha ts args st).2 := by
  intro a s hlook
  rw [save_text_aliases] at hlook
  rcases saveAliases_cases hlook with hsym | hold
  · subst hsym
    obtain ⟨row, hrow, -, -, -⟩ := alookup_save_self sha ts args st
    rw [hrow]
    rfl
  · exact alookup_save_mono sha ts args st s (hinv a s hold)

/-- Fold a list of (timestamp, args) save operations over a store (reads
mutate nothing, so saves are the only state transitions). -/
def applySaves (sha : String → String) (ops : List (String × SaveArgs)) (st : Store) :
    Store :=
  ops.foldl (fun s p => (save_text sha p.1 p.2 s).2) st

/-- C10: starting from the empty store, after any sequence of saves every
alias maps to a symbol that has a texts row. -/
theorem sm_C10 (sha : String → String) (ops : List (String × SaveArgs)) :
    AliasInv (applySaves sha ops emptyStore) := by
  have hgen : ∀ (l : List (String × SaveArgs)) (st : Store),
      AliasInv st → AliasInv (applySaves sha l st) := by
    intro l
    induction l with
    | nil => intro st h; exact h
    | cons hd tl ih =>
      intro st h
      exact ih _ (aliasInv_save sha hd.1 hd.2 st h)
  refine hgen ops emptyStore ?_
  intro a s hlook
  simp [emptyStore, alookup] at hlook

/-! ### Claim C1 -/

/-- C1 (amended): after a save, `get` on the symbol returns exactly the
saved body; and `get` on a supplied alias agrees with `get` on the symbol
provided the alias carries no surrounding whitespace, is non-blank, and
does not coincide with a symbol present in the texts table after the
save. -/
theorem sm_C1_amended (sha : String → String) (ts : String) (args : SaveArgs)
    (st : Store) (hbody : ¬(args.text = "")) :
    get args.symbol (save_text sha ts args st).2 = some args.text ∧
    (∀ a, a ∈ args.aliases.getD [] → trimS a = a → ¬(a = "") →
      alookup a (save_text sha ts args st).2.texts = none →
      get a (save_text sha ts args st).2 = get args.symbol (save_text sha ts args st).2) := by
  obtain ⟨row, hrow, hb, -, -⟩ := alookup_save_self sha ts args st
  have hget : get args.symbol (save_text sha ts args st).2 = some args.text := by
    rw [get, resolve_symbol, if_pos (by rw [hrow]; rfl)]
    simp [hrow, hb]
  refine ⟨hget, ?_⟩
  intro a hmem htrim hne hnosym
  rw [get, resolve_symbol, if_neg (by rw [hnosym]; simp), save_text_aliases,
    saveAliases_mem hmem htrim hne, hget]
  simp [hrow, hb]

/-- Counterexample for C1 as stated: on a store already holding symbol
"A" (body "a"), saving symbol "B" (body "b") with alias "A" leaves
`get("A")` resolving to the symbol "A", not the alias, so
`get("A") ≠ get("B")` although "A" was a supplied alias of that save. -/
theorem sm_C1_counterexample :
    get "A" (save_text (fun s => s) "t2" ⟨"B", "b", none, none, some ["A"]⟩
        (save_text (fun s => s) "t1" ⟨"A", "a", none, none, none⟩ emptyStore).2).2
      = some "a" ∧
    get "B" (save_text (fun s => s) "t2" ⟨"B", "b", none, none, some ["A"]⟩
        (save_text (fun s => s) "t1" ⟨"A", "a", none, none, none⟩ emptyStore).2).2
      = some "b" ∧
    ¬(get "A" (save_text (fun s => s) "t2" ⟨"B", "b", none, none, some ["A"]⟩
        (save_text (fun s => s) "t1" ⟨"A", "a", none, none, none⟩ emptyStore).2).2
      = get "B" (save_text (fun s => s) "t2" ⟨"B", "b", none, none, some ["A"]⟩
        (save_text (fun s => s) "t1" ⟨"A", "a", none, none, none⟩ emptyStore).2).2) := by
  decide

/-- Witness for the amended C1 at a concrete input: saving "S" with body
"hello" and alias "al" makes both `get("S")` and `get("al")` return
"hello". -/
theorem sm_C1_witness :
    get "S" (save_text (fun s => s) "t" ⟨"S", "hello", none, none, some ["al"]⟩ emptyStore).2
      = some "hello" ∧
    get "al" (save_text (fun s => s) "t" ⟨"S", "hello", none, none, some ["al"]⟩ emptyStore).2
      = get "S" (save_text (fun s => s) "t" ⟨"S", "hello", none, none, some ["al"]⟩ emptyStore).2 := by
  have h := sm_C1_amended (fun s => s) "t" ⟨"S", "hello", none, none, some ["al"]⟩
    emptyStore (by decide)
  exact ⟨h.1, h.2 "al" (by decide) (by decide) (by decide) (by decide)⟩

/-! ### Claim C3 -/

/-- C3 (amended): an Undo with a persisted record issues a save targeting
the record's symbol with cat/subcat reverted to the record's previous
values and the body set to the current input's body (so the stored body is
unchanged only when it already equals that body); the record is not
cleared, a second Undo performs the same reversal again, and an Undo with
no record mutates nothing. -/
theorem sm_C3_amended (sha : String → String) (ts ts' blkBody : String)
    (blkAliases : Option (List String)) (r : ApplyRecord) (st : Store) :
    (undo_step sha ts blkBody blkAliases (some r) st).2 = some r ∧
    (∃ row, alookup r.symbol (undo_step sha ts blkBody blkAliases (some r) st).1.texts
        = some row ∧
      row.cat = r.prev_cat ∧ row.subcat = r.prev_subcat ∧ row.body = blkBody) ∧
    (∃ row, alookup r.symbol
        (undo_step sha ts' blkBody blkAliases
          (undo_step sha ts blkBody blkAliases (some r) st).2
          (undo_step sha ts blkBody blkAliases (some r) st).1).1.texts = some row ∧
      row.cat = r.prev_cat ∧ row.subcat = r.prev_subcat ∧ row.body = blkBody) ∧
    undo_step sha ts blkBody blkAliases none st = (st, none) := by
  refine ⟨rfl, ?_, ?_, rfl⟩
  · obtain ⟨row, hrow, hb, hc, hs⟩ := alookup_save_self sha ts
      { symbol := r.symbol, text := blkBody, cat := r.prev_cat,
        subcat := r.prev_subcat, aliases := blkAliases } st
    exact ⟨row, hrow, hc, hs, hb⟩
  · obtain ⟨row, hrow, hb, hc, hs⟩ := alookup_save_self sha ts'
      { symbol := r.symbol, text := blkBody, cat := r.prev_cat,
        subcat := r.prev_subcat, aliases := blkAliases }
      (undo_step sha ts blkBody blkAliases (some r) st).1
    exact ⟨row, hrow, hc, hs, hb⟩

/-- Counterexample for C3 as stated: symbol "S" holds body "old"; the
current DEFINE block's body is "new"; Undo on a record for "S" rewrites
the stored body to "new" — the claim's "leaves that symbol's stored body
unchanged" fails. -/
theorem sm_C3_counterexample :
    ((alookup "S" (undo_step (fun s => s) "t1" "new" none
        (some ⟨"S", none, none, some "X", none, 1⟩)
        (save_text (fun s => s) "t0" ⟨"S", "old", some "X", none, none⟩ emptyStore).2).1.texts).map
      (fun row => row.body) = some "new") ∧
    ¬((alookup "S" (undo_step (fun s => s) "t1" "new" none
        (some ⟨"S", none, none, some "X", none, 1⟩)
        (save_text (fun s => s) "t0" ⟨"S", "old", some "X", none, none⟩ emptyStore).2).1.texts).map
      (fun row => row.body) = some "old") := by
  decide

/-! ### Claim C8 -/

/-- C8: suggestion computation yields the explicit absent result (`none`)
when the new entry's token set is empty, and when the scan produces no
category aggregate and no pair aggregate; it is a pure read of the store
(the embedding returns no store, mirroring that the code only SELECTs). -/
theorem sm_C8 (st : Store) (symbol text : String) (limitRows : Nat) (minSim : ℚ) :
    (tokenize (symbol ++ " " ++ text) 80 = [] →
      suggest_taxonomy st symbol text limitRows minSim = none) ∧
    (((taggedRows st limitRows).foldl
        (scanStep (tokenize (symbol ++ " " ++ text) 80) minSim) ⟨[], [], []⟩).catScores = [] →
     ((taggedRows st limitRows).foldl
        (scanStep (tokenize (symbol ++ " " ++ text) 80) minSim) ⟨[], [], []⟩).subcatScores = [] →
      suggest_taxonomy st symbol text limitRows minSim = none) := by
  constructor
  · intro h
    simp [suggest_taxonomy, h]
  · intro h1 h2
    simp only [suggest_taxonomy]
    by_cases hN : tokenize (symbol ++ " " ++ text) 80 = []
    · simp [hN]
    · rw [if_neg hN]
      by_cases hR : taggedRows st limitRows = []
      · simp [hR]
      · rw [if_neg hR]
        simp [h1, h2]

/-- Witness for C8: a token-free save input yields `none`, and a store
whose only tagged row shares no token with the request also yields
`none`. -/
theorem sm_C8_witness :
    suggest_taxonomy emptyStore "-" "!" 2000 (1/10) = none ∧
    suggest_taxonomy (save_text (fun s => s) "t" ⟨"N", "alpha", some "c", none, none⟩ emptyStore).2
      "zz" "yy" 2000 (1/10) = none := by
  constructor
  · exact (sm_C8 emptyStore "-" "!" 2000 (1/10)).1 (by decide)
  · exact (sm_C8 (save_text (fun s => s) "t" ⟨"N", "alpha", some "c", none, none⟩ emptyStore).2
      "zz" "yy" 2000 (1/10)).2 (by decide) (by decide)

/-! ### Claim C7 -/

/-- C7: in the scan loop, a taxonomy-bearing neighbor whose Jaccard
similarity is exactly 0.10 is appended to the neighbor list and votes into
the category aggregation, while any neighbor strictly below 0.10 leaves
the scan state untouched. -/
theorem sm_C7 (newToks : List String) (st : ScanState) (row : String × TextRow)
    (htax : (truthy row.2.cat || truthy row.2.subcat) = true) :
    (jaccard newToks (tokenize (row.1 ++ " " ++ row.2.body) 80) = 1/10 →
      (scanStep newToks (1/10) st row).neighbors
        = st.neighbors ++ [(row.1, jaccard newToks (tokenize (row.1 ++ " " ++ row.2.body) 80))] ∧
      (truthy row.2.cat = true →
        (scanStep newToks (1/10) st row).catScores
          = bump (row.2.cat.getD "") (jaccard newToks (tokenize (row.1 ++ " " ++ row.2.body) 80))
              st.catScores)) ∧
    (jaccard newToks (tokenize (row.1 ++ " " ++ row.2.body) 80) < 1/10 →
      scanStep newToks (1/10) st row = st) := by
  have hskip : (!truthy row.2.cat && !truthy row.2.subcat) = false := by
    rcases Bool.or_eq_true_iff.mp htax with h | h <;> simp [h]
  constructor
  · intro hsim
    constructor
    · by_cases hc : truthy row.2.cat = true <;> by_cases hs : truthy row.2.subcat = true
      all_goals
        simp only [scanStep, hskip, Bool.false_eq_true, if_false]
        rw [hsim, if_neg (lt_irrefl _)]
        simp [hc, hs]
    · intro hc
      by_cases hs : truthy row.2.subcat = true
      all_goals
        simp only [scanStep, hskip, Bool.false_eq_true, if_false]
        rw [hsim, if_neg (lt_irrefl _)]
        simp [hc, hs]
  · intro hsim
    simp only [scanStep, hskip, Bool.false_eq_true, if_false]
    rw [if_pos hsim]

/-- Witness for C7: with request tokens {a,b,c,d,e}, the neighbor
"a"/"f g h i j" (category "c1") has similarity exactly 1/10 and is
included; the neighbor "z"/"y x w v u" has similarity 0 < 1/10 and is
dropped. -/
theorem sm_C7_witness :
    (scanStep ["a", "b", "c", "d", "e"] (1/10) ⟨[], [], []⟩
        ("a", ⟨"f g h i j", some "c1", none, "h", "t", "t"⟩)).neighbors
      = [("a", jaccard ["a", "b", "c", "d", "e"]
            (tokenize ("a" ++ " " ++ "f g h i j") 80))] ∧
    (scanStep ["a", "b", "c", "d", "e"] (1/10) ⟨[], [], []⟩
        ("a", ⟨"f g h i j", some "c1", none, "h", "t", "t"⟩)).catScores
      = bump "c1" (jaccard ["a", "b", "c", "d", "e"]
            (tokenize ("a" ++ " " ++ "f g h i j") 80)) [] ∧
    scanStep ["a", "b", "c", "d", "e"] (1/10) ⟨[], [], []⟩
        ("z", ⟨"y x w v u", some "c1", none, "h", "t", "t"⟩) = ⟨[], [], []⟩ := by
  have h1 := sm_C7 ["a", "b", "c", "d", "e"] ⟨[], [], []⟩
    ("a", ⟨"f g h i j", some "c1", none, "h", "t", "t"⟩) (by decide)
  have h2 := sm_C7 ["a", "b", "c", "d", "e"] ⟨[], [], []⟩
    ("z", ⟨"y x w v u", some "c1", none, "h", "t", "t"⟩) (by decide)
  obtain ⟨ha, hb⟩ := h1.1 (by decide)
  exact ⟨ha, hb (by decide), h2.2 (by decide)⟩

/-! ### Claim C6 -/

/-- C6 (amended): resources/read faults with ProtocolFault exactly when
the uri lacks the substring "://" (the only shape check the handler
performs — it does not pin the fixed `resource://sm/v1/texts/` scheme);
otherwise the final path segment is resolved symbol-first-then-alias,
giving NotFound when unresolved and the body in a single content
descriptor when resolved. -/
theorem sm_C6_amended (uri : String) (st : Store) :
    (hasSchemeSep uri = false → resources_read uri st = ReadResult.protocolFault) ∧
    (hasSchemeSep uri = true →
      (resolve_symbol (lastSegment uri) st = none →
        resources_read uri st = ReadResult.notFound) ∧
      (∀ rsym, resolve_symbol (lastSegment uri) st = some rsym →
        (alookup rsym st.texts = none → resources_read uri st = ReadResult.notFound) ∧
        (∀ row, alookup rsym st.texts = some row →
          resources_read uri st = ReadResult.contents uri row.body))) := by
  constructor
  · intro h
    simp [resources_read, h]
  · intro h
    refine ⟨?_, ?_⟩
    · intro hr
      simp [resources_read, h, hr]
    · intro rsym hr
      refine ⟨?_, ?_⟩
      · intro hl
        simp [resources_read, h, hr, hl]
      · intro row hl
        simp [resources_read, h, hr, hl]

/-- Counterexample for C6 as stated: with only symbol "S" (body "b")
stored, the uri "wrong://S" does not match the fixed scheme uri for "S",
yet the read succeeds with the body instead of failing with
ProtocolFault. -/
theorem sm_C6_counterexample :
    ¬("wrong://S" = texts_uri "S") ∧
    ¬(resources_read "wrong://S"
        (save_text (fun s => s) "t" ⟨"S", "b", none, none, none⟩ emptyStore).2
      = ReadResult.protocolFault) ∧
    resources_read "wrong://S"
        (save_text (fun s => s) "t" ⟨"S", "b", none, none, none⟩ emptyStore).2
      = ReadResult.contents "wrong://S" "b" := by
  decide

/-- Witness for the amended C6: a separator-free uri faults, the fixed
scheme uri resolves to the stored body, and an unresolved final segment
gives NotFound. -/
theorem sm_C6_witness :
    resources_read "nouri"
        (save_text (fun s => s) "t" ⟨"S", "b", none, none, none⟩ emptyStore).2
      = ReadResult.protocolFault ∧
    resources_read (texts_uri "S")
        (save_text (fun s => s) "t" ⟨"S", "b", none, none, none⟩ emptyStore).2
      = ReadResult.contents (texts_uri "S") "b" ∧
    resources_read "resource://sm/v1/texts/missing"
        (save_text (fun s => s) "t" ⟨"S", "b", none, none, none⟩ emptyStore).2
      = ReadResult.notFound := by
  refine ⟨?_, ?_, ?_⟩
  · exact (sm_C6_amended "nouri"
      (save_text (fun s => s) "t" ⟨"S", "b", none, none, none⟩ emptyStore).2).1 (by decide)
  · exact (((sm_C6_amended (texts_uri "S")
      (save_text (fun s => s) "t" ⟨"S", "b", none, none, none⟩ emptyStore).2).2 (by decide)).2
        "S" (by decide)).2
        { body := "b", cat := none, subcat := none, hash := "b",
          tsCreated := "t", tsUpdated := "t" } (by decide)
  · exact ((sm_C6_amended "resource://sm/v1/texts/missing"
      (save_text (fun s => s) "t" ⟨"S", "b", none, none, none⟩ emptyStore).2).2 (by decide)).1
      (by decide)

/-! ### Claim C5 -/

theorem findMatchingPair_none (l : List ScoredPair) :
    findMatchingPair none l = none := by
  induction l with
  | nil => rfl
  | cons hd tl ih => simp [findMatchingPair, truthy, ih]

/-- C5: the combined score of the selection is the minimum of the selected
category score and the selected pair score when both are (truthily)
selected, otherwise whichever one is present, otherwise 0 — including the
pair-fallback where the pair's own category overrides the top category and
supplies the category score when it was unset; and the presented default
is "Y" (accept) exactly when the combined score is ≥ 0.65. -/
theorem sm_C5 (sug : Suggestion) :
    (prompt_apply_default (pick_top_suggestion sug).2.2 = "Y" ↔
      65/100 ≤ (pick_top_suggestion sug).2.2) ∧
    (sug.cat = [] → sug.subcat = [] →
      pick_top_suggestion sug = (none, none, 0)) ∧
    (∀ c cs, sug.cat = c :: cs → sug.subcat = [] →
      pick_top_suggestion sug = (some c.value, none, c.score)) ∧
    (∀ s0 ss, sug.cat = [] → sug.subcat = s0 :: ss →
      (pick_top_suggestion sug).2.2 = s0.score) ∧
    (∀ c cs s0 ss, sug.cat = c :: cs → sug.subcat = s0 :: ss → ¬(c.value = "") →
      (∀ sp, findMatchingPair (some c.value) sug.subcat = some sp → ¬(sp.value = "") →
        (pick_top_suggestion sug).2.2 = min c.score sp.score) ∧
      (findMatchingPair (some c.value) sug.subcat = none →
        ¬(s0.value = "") → ¬(s0.cat = "") →
        ((¬(c.score = 0) → (pick_top_suggestion sug).2.2 = min c.score s0.score) ∧
         (c.score = 0 → (pick_top_suggestion sug).2.2 = s0.score)))) := by
  refine ⟨?_, ?_, ?_, ?_, ?_⟩
  · by_cases h : (65:ℚ)/100 ≤ (pick_top_suggestion sug).2.2
    · simp [prompt_apply_default, h]
    · simp only [prompt_apply_default, if_neg h]
      constructor
      · intro hn
        exact absurd hn (by decide)
      · intro hc
        exact absurd hc h
  · intro h1 h2
    simp [pick_top_suggestion, h1, h2, truthy]
  · intro c cs h1 h2
    by_cases hsc : c.score = 0 <;>
      simp [pick_top_suggestion, h1, h2, truthy, hsc]
  · intro s0 ss h1 h2
    by_cases hcat : s0.cat = "" <;> by_cases hval : s0.value = "" <;>
      by_cases hsc : s0.score = 0 <;>
      simp [pick_top_suggestion, h1, h2, findMatchingPair_none, truthy, hcat, hval, hsc]
  · intro c cs s0 ss h1 h2 hcv
    constructor
    · intro sp hfind hspv
      rw [h2] at hfind
      simp [pick_top_suggestion, h1, h2, hfind, truthy, hcv, hspv]
    · intro hfind hs0v hs0c
      rw [h2] at hfind
      constructor
      · intro hc0
        simp [pick_top_suggestion, h1, h2, hfind, truthy, hcv, hs0v, hs0c, hc0]
      · intro hc0
        simp [pick_top_suggestion, h1, h2, hfind, truthy, hcv, hs0v, hs0c, hc0]

/-- Witness for C5: a matching pair gives min(0.7, 0.6) = 0.6 with default
"n"; a lone category with score 0.9 gives 0.9 with default "Y". -/
theorem sm_C5_witness :
    (pick_top_suggestion ⟨[⟨"ai", 7/10⟩], [⟨"ai", "arch", 6/10⟩], []⟩).2.2
      = min (7/10 : ℚ) (6/10) ∧
    pick_top_suggestion ⟨[⟨"ai", 9/10⟩], [], []⟩ = (some "ai", none, 9/10) ∧
    prompt_apply_default (pick_top_suggestion ⟨[⟨"ai", 9/10⟩], [], []⟩).2.2 = "Y" := by
  refine ⟨?_, ?_, ?_⟩
  · exact ((sm_C5 ⟨[⟨"ai", 7/10⟩], [⟨"ai", "arch", 6/10⟩], []⟩).2.2.2.2 ⟨"ai", 7/10⟩ []
      ⟨"ai", "arch", 6/10⟩ [] rfl rfl (by decide)).1 ⟨"ai", "arch", 6/10⟩ (by decide)
      (by decide)
  · exact (sm_C5 ⟨[⟨"ai", 9/10⟩], [], []⟩).2.2.1 ⟨"ai", 9/10⟩ [] rfl rfl
  · exact (sm_C5 ⟨[⟨"ai", 9/10⟩], [], []⟩).1.mpr (by decide)

/-! ### Claim C4 -/

theorem sum_map_div (l : List ℚ) (c : ℚ) :
    (l.map (fun x => x / c)).sum = l.sum / c := by
  induction l with
  | nil => simp
  | cons hd tl ih => simp [ih, add_div]

theorem mem_insDesc {x y : String × ℚ} {l : List (String × ℚ)}
    (h : y ∈ insDesc x l) : y = x ∨ y ∈ l := by
  induction l with
  | nil => simpa [insDesc] using h
  | cons hd tl ih =>
    by_cases hc : x.2 < hd.2
    · rw [insDesc, if_pos hc] at h
      rcases List.mem_cons.mp h with heq | hmem
      · exact Or.inr (heq ▸ List.mem_cons_self _ _)
      · rcases ih hmem with h1 | h2
        · exact Or.inl h1
        · exact Or.inr (List.mem_cons_of_mem _ h2)
    · rw [insDesc, if_neg hc] at h
      rcases List.mem_cons.mp h with heq | hmem
      · exact Or.inl heq
      · exact Or.inr hmem

theorem mem_sortDesc {y : String × ℚ} {l : List (String × ℚ)}
    (h : y ∈ sortDesc l) : y ∈ l := by
  induction l with
  | nil => simpa [sortDesc] using h
  | cons hd tl ih =>
    rw [sortDesc] at h
    rcases mem_insDesc h with heq | hmem
    · exact heq ▸ List.mem_cons_self _ _
    · exact List.mem_cons_of_mem _ (ih hmem)

/-- C4 (amended): for a suggestion group with positive aggregates, each
returned entry's score is its aggregate divided by the sum of ALL the
group's aggregates (then rounded to 4 places); the full normalized
distribution sums to 1, but only the top ≤3 (rounded) entries are
returned, so the returned scores themselves need not sum to 1.  Both the
category group (`top_n`) and the (category, subcategory) pair group
(`topSubcats`) normalize this way. -/
theorem sm_C4_amended (d : List (String × ℚ)) (hpos : ∀ kv ∈ d, 0 < kv.2)
    (hne : ¬(d = [])) :
    ((d.map (fun kv => kv.2 / (d.map (fun kv => kv.2)).sum)).sum = 1) ∧
    (∀ sv ∈ top_n d 3, ∃ kv, kv ∈ d ∧ sv.value = kv.1 ∧
      sv.score = round4 (kv.2 / (d.map (fun kv => kv.2)).sum)) ∧
    (∀ sp ∈ topSubcats d, ∃ kv, kv ∈ d ∧ sp.cat = (splitKey kv.1).1 ∧
      sp.value = (splitKey kv.1).2 ∧
      sp.score = round4 (kv.2 / (d.map (fun kv => kv.2)).sum)) := by
  have htot : 0 < (d.map (fun kv => kv.2)).sum := by
    refine List.sum_pos _ ?_ ?_
    · intro a ha
      obtain ⟨kv, hkv, hval⟩ := List.mem_map.mp ha
      exact hval ▸ hpos kv hkv
    · intro hmap
      exact hne (List.map_eq_nil_iff.mp hmap)
  have hnz : (d.map (fun kv => kv.2)).sum ≠ 0 := ne_of_gt htot
  have horone : orOne ((d.map (fun kv => kv.2)).sum) = (d.map (fun kv => kv.2)).sum := by
    rw [orOne, if_neg hnz]
  refine ⟨?_, ?_, ?_⟩
  · have : (d.map (fun kv => kv.2 / (d.map (fun kv => kv.2)).sum))
        = ((d.map (fun kv => kv.2)).map (fun x => x / (d.map (fun kv => kv.2)).sum)) := by
      rw [List.map_map]
      rfl
    rw [this, sum_map_div, div_self hnz]
  · intro sv hsv
    simp only [top_n, horone] at hsv
    obtain ⟨kv, hkvmem, hkv⟩ := List.mem_map.mp hsv
    refine ⟨kv, mem_sortDesc (List.take_subset _ _ hkvmem), ?_, ?_⟩
    · rw [← hkv]
    · rw [← hkv]
  · intro sp hsp
    simp only [topSubcats, horone] at hsp
    obtain ⟨kv, hkvmem, hkv⟩ := List.mem_map.mp hsp
    refine ⟨kv, mem_sortDesc (List.take_subset _ _ hkvmem), ?_, ?_, ?_⟩
    · rw [← hkv]
    · rw [← hkv]
    · rw [← hkv]

/-- The store of the C4 counterexample: four neighbors with four distinct
categories, all equally similar to the incoming entry. -/
def storeC4 : Store :=
  applySaves (fun s => s)
    [("t1", ⟨"N1", "alpha beta", some "c1", none, none⟩),
     ("t2", ⟨"N2", "alpha beta", some "c2", none, none⟩),
     ("t3", ⟨"N3", "alpha beta", some "c3", none, none⟩),
     ("t4", ⟨"N4", "alpha beta", some "c4", none, none⟩)] emptyStore

/-- Counterexample for C4 as stated: with four equal category aggregates,
each returned score is 1/4 (normalized by the sum over all FOUR
aggregates), and only three entries are returned, so the returned
category scores sum to 3/4, not 1. -/
theorem sm_C4_counterexample :
    ((suggest_taxonomy storeC4 "X" "alpha beta" 2000 (1/10)).map
      (fun sug => (sug.cat.map (fun sv => sv.score)).sum)) = some (3/4) ∧
    ¬((3 : ℚ)/4 = 1) := by
  constructor
  · decide
  · decide

/-- Witness for the amended C4 at the concrete group
[("a", 1/2), ("b", 1/2)]: the full normalized distribution sums to 1 and
the first returned entry carries round4((1/2)/1). -/
theorem sm_C4_witness :
    (([("a", (1/2 : ℚ)), ("b", 1/2)].map
      (fun kv => kv.2 / ([("a", (1/2 : ℚ)), ("b", 1/2)].map (fun kv => kv.2)).sum)).sum = 1) ∧
    (∀ sv ∈ top_n [("a", (1/2 : ℚ)), ("b", 1/2)] 3, ∃ kv,
      kv ∈ [("a", (1/2 : ℚ)), ("b", 1/2)] ∧ sv.value = kv.1 ∧
      sv.score = round4 (kv.2 / ([("a", (1/2 : ℚ)), ("b", 1/2)].map (fun kv => kv.2)).sum)) := by
  have h := sm_C4_amended [("a", 1/2), ("b", 1/2)] (by decide) (by decide)
  exact ⟨h.1, h.2.1⟩

/-! ### Claim C9 -/

theorem memS_iff {x : String} {l : List String} : memS x l = true ↔ x ∈ l := by
  induction l with
  | nil => simp [memS]
  | cons hd tl ih =>
    by_cases h : hd = x
    · simp [memS, h]
    · simp only [memS, if_neg h, ih, List.mem_cons]
      constructor
      · exact Or.inr
      · rintro (heq | hmem)
        · exact absurd heq.symm h
        · exact hmem

theorem mem_dedupL {x : String} {l : List String} (h : x ∈ l) : x ∈ dedupL l := by
  induction l with
  | nil => simp at h
  | cons hd tl ih =>
    rcases List.mem_cons.mp h with heq | hmem
    · subst heq
      by_cases hm : memS x tl = true
      · simpa [dedupL, hm] using ih (memS_iff.mp hm)
      · have hm' : memS x tl = false := by
          cases hx : memS x tl
          · rfl
          · exact absurd hx hm
        simp [dedupL, hm']
    · by_cases hm : memS hd tl = true
      · simpa [dedupL, hm] using ih hmem
      · have hm' : memS hd tl = false := by
          cases hx : memS hd tl
          · rfl
          · exact absurd hx hm
        simp [dedupL, hm']
        exact Or.inr (ih hmem)

theorem jaccard_nonneg (a b : List String) : 0 ≤ jaccard a b := by
  simp only [jaccard]
  split
  · exact le_refl 0
  · split
    · exact le_refl 0
    · exact div_nonneg (Nat.cast_nonneg _) (Nat.cast_nonneg _)

theorem jaccard_self {l : List String} (h : ¬(l = [])) : jaccard l l = 1 := by
  have hsa : ¬(dedupL l = []) := by
    obtain ⟨x, hx⟩ := List.exists_mem_of_ne_nil l h
    exact List.ne_nil_of_mem (mem_dedupL hx)
  have hall : ∀ x ∈ dedupL l, memS x (dedupL l) = true := fun x hx => memS_iff.mpr hx
  have hfilter1 : (dedupL l).filter (fun x => memS x (dedupL l)) = dedupL l :=
    List.filter_eq_self.mpr hall
  have hfilter2 : (dedupL l).filter (fun x => !(memS x (dedupL l))) = [] := by
    rw [List.filter_eq_nil_iff]
    intro x hx
    simp [hall x hx]
  have hlen : ¬((dedupL l).length = 0) := by
    intro hz
    exact hsa (List.length_eq_zero.mp hz)
  simp only [jaccard, hfilter1, hfilter2, List.length_nil, Nat.add_zero]
  rw [if_neg (by simp [hsa]), if_neg hlen]
  exact div_self (Nat.cast_ne_zero.mpr hlen)

theorem alookup_bump_none {k : String} {x : ℚ} {l : List (String × ℚ)}
    (h : alookup k l = none) : alookup k (bump k x l) = some x := by
  induction l with
  | nil => simp [bump, alookup]
  | cons hd tl ih =>
    obtain ⟨k', v'⟩ := hd
    by_cases hk : k' = k
    · rw [alookup, if_pos hk] at h
      exact absurd h (by simp)
    · rw [alookup, if_neg hk] at h
      simp [bump, hk, alookup, ih h]

theorem alookup_bump_some {k : String} {x w : ℚ} {l : List (String × ℚ)}
    (h : alookup k l = some w) : alookup k (bump k x l) = some (w + x) := by
  induction l with
  | nil => simp [alookup] at h
  | cons hd tl ih =>
    obtain ⟨k', v'⟩ := hd
    by_cases hk : k' = k
    · rw [alookup, if_pos hk, Option.some_inj] at h
      subst h
      simp [bump, hk, alookup]
    · rw [alookup, if_neg hk] at h
      simp [bump, hk, alookup, ih h]

theorem alookup_bump_ne {a k : String} {x : ℚ} {l : List (String × ℚ)}
    (h : ¬(a = k)) : alookup a (bump k x l) = alookup a l := by
  have hka : ¬(k = a) := fun hh => h hh.symm
  induction l with
  | nil => simp [bump, alookup, hka]
  | cons hd tl ih =>
    obtain ⟨k', v'⟩ := hd
    by_cases hk : k' = k
    · subst hk
      simp [bump, alookup, hka]
    · by_cases ha : k' = a
      · simp [bump, hk, alookup, ha, h]
      · simp [bump, hk, alookup, ha, ih]

/-- The category-score table after one scan step is either untouched or
bumped at the row's category key by a nonnegative similarity. -/
theorem scanStep_catScores_shape (newToks : List String) (minSim : ℚ)
    (st : ScanState) (row : String × TextRow) :
    (scanStep newToks minSim st row).catScores = st.catScores ∨
    (truthy row.2.cat = true ∧
      ∃ sim, 0 ≤ sim ∧
        (scanStep newToks minSim st row).catScores = bump (row.2.cat.getD "") sim st.catScores) := by
  by_cases h1 : (!truthy row.2.cat && !truthy row.2.subcat) = true
  · left
    simp only [scanStep, if_pos h1]
  · by_cases h2 : jaccard newToks (tokenize (row.1 ++ " " ++ row.2.body) 80) < minSim
    · left
      simp only [scanStep, if_neg h1, if_pos h2]
    · by_cases h3 : truthy row.2.cat = true
      · right
        refine ⟨h3, jaccard newToks (tokenize (row.1 ++ " " ++ row.2.body) 80),
          jaccard_nonneg _ _, ?_⟩
        by_cases h4 : (truthy row.2.cat && truthy row.2.subcat) = true <;>
          simp only [scanStep, if_neg h1, if_neg h2, if_pos h3, h4, if_true, if_false,
            Bool.false_eq_true]
      · left
        by_cases h4 : (truthy row.2.cat && truthy row.2.subcat) = true
        · rw [Bool.and_eq_true] at h4
          exact absurd h4.1 h3
        · simp only [scanStep, if_neg h1, if_neg h2, if_neg h3, h4, Bool.false_eq_true,
            if_false]

/-- A category's aggregate only grows along the scan. -/
theorem foldl_catScores_mono (newToks : List String) (minSim : ℚ)
    (rows : List (String × TextRow)) (st : ScanState) (k : String) (v : ℚ)
    (h : alookup k st.catScores = some v) :
    ∃ v', alookup k ((rows.foldl (scanStep newToks minSim) st).catScores) = some v' ∧
      v ≤ v' := by
  induction rows generalizing st v with
  | nil => exact ⟨v, h, le_refl v⟩
  | cons hd tl ih =>
    rw [List.foldl_cons]
    rcases scanStep_catScores_shape newToks minSim st hd with hsame | ⟨-, sim, hsim, hbump⟩
    · exact ih _ v (hsame ▸ h)
    · by_cases hk : k = hd.2.cat.getD ""
      · subst hk
        obtain ⟨v', hv', hle⟩ := ih _ (v + sim) (hbump ▸ alookup_bump_some h)
        exact ⟨v', hv', le_trans (le_add_of_nonneg_right hsim) hle⟩
      · refine ih _ v ?_
        rw [hbump, alookup_bump_ne hk]
        exact h

/-- All category aggregates in scan states reachable from the empty state
are nonnegative. -/
def CatNonneg (st : ScanState) : Prop :=
  ∀ k v, alookup k st.catScores = some v → 0 ≤ v

theorem catNonneg_scanStep (newToks : List String) (minSim : ℚ)
    (st : ScanState) (row : String × TextRow) (h : CatNonneg st) :
    CatNonneg (scanStep newToks minSim st row) := by
  intro k v hv
  rcases scanStep_catScores_shape newToks minSim st row with hsame | ⟨-, sim, hsim, hbump⟩
  · exact h k v (hsame ▸ hv)
  · rw [hbump] at hv
    by_cases hk : k = row.2.cat.getD ""
    · rw [hk] at hv
      cases hprev : alookup (row.2.cat.getD "") st.catScores with
      | none =>
        rw [alookup_bump_none hprev, Option.some_inj] at hv
        exact hv ▸ hsim
      | some w =>
        rw [alookup_bump_some hprev, Option.some_inj] at hv
        exact hv ▸ add_nonneg (h _ w hprev) hsim
    · rw [alookup_bump_ne hk] at hv
      exact h k v hv

theorem catNonneg_foldl (newToks : List String) (minSim : ℚ)
    (rows : List (String × TextRow)) (st : ScanState) (h : CatNonneg st) :
    CatNonneg (rows.foldl (scanStep newToks minSim) st) := by
  induction rows generalizing st with
  | nil => exact h
  | cons hd tl ih =>
    rw [List.foldl_cons]
    exact ih _ (catNonneg_scanStep newToks minSim st hd h)

/-- Processing a non-skipped, over-threshold row leaves its category's
aggregate at least the row's similarity (given nonnegative prior
aggregates). -/
theorem scanStep_catScores_self (newToks : List String) (minSim : ℚ)
    (st : ScanState) (row : String × TextRow) (hnn : CatNonneg st)
    (h3 : truthy row.2.cat = true)
    (h2 : ¬(jaccard newToks (tokenize (row.1 ++ " " ++ row.2.body) 80) < minSim)) :
    ∃ v, alookup (row.2.cat.getD "") ((scanStep newToks minSim st row).catScores) = some v ∧
      jaccard newToks (tokenize (row.1 ++ " " ++ row.2.body) 80) ≤ v := by
  have h1 : ¬((!truthy row.2.cat && !truthy row.2.subcat) = true) := by
    simp [h3]
  have hcs : (scanStep newToks minSim st row).catScores
      = bump (row.2.cat.getD "") (jaccard newToks (tokenize (row.1 ++ " " ++ row.2.body) 80))
          st.catScores := by
    by_cases h4 : (truthy row.2.cat && truthy row.2.subcat) = true <;>
      simp only [scanStep, if_neg h1, if_neg h2, if_pos h3, h4, if_true, if_false,
        Bool.false_eq_true]
  rw [hcs]
  cases hprev : alookup (row.2.cat.getD "") st.catScores with
  | none => exact ⟨_, alookup_bump_none hprev, le_refl _⟩
  | some w =>
    exact ⟨w + _, alookup_bump_some hprev,
      le_add_of_nonneg_left (hnn _ w hprev)⟩

theorem alookup_nil {β : Type} (k : String) : alookup k ([] : List (String × β)) = none := rfl

/-- The suggestion is present once the token set, the scanned rows, and
the category aggregation are all non-empty. -/
theorem suggest_taxonomy_isSome {st : Store} {symbol text : String} {limitRows : Nat}
    {minSim : ℚ}
    (hN : ¬(tokenize (symbol ++ " " ++ text) 80 = []))
    (hR : ¬(taggedRows st limitRows = []))
    (hCS : ¬(((taggedRows st limitRows).foldl
        (scanStep (tokenize (symbol ++ " " ++ text) 80) minSim) ⟨[], [], []⟩).catScores = [])) :
    ¬(suggest_taxonomy st symbol text limitRows minSim = none) := by
  intro hnone
  simp only [suggest_taxonomy] at hnone
  rw [if_neg hN, if_neg hR] at hnone
  by_cases hcond : (((taggedRows st limitRows).foldl
      (scanStep (tokenize (symbol ++ " " ++ text) 80) minSim) ⟨[], [], []⟩).catScores = [])
  · exact hCS hcond
  · rw [if_neg (by simp [hcond])] at hnone
    exact Option.some_ne_none _ hnone

theorem mcp_save_suggestions (sha : String → String) (ts : String) (args : SaveArgs)
    (st : Store) (hsub : args.subcat = none) :
    (mcp_save sha ts args st).2.1 =
      suggest_taxonomy (save_text sha ts args st).2 args.symbol args.text 2000 (1/10) := by
  simp [mcp_save, hsub]

/-- C9 (amended): for a save that supplies a non-blank category, omits the
subcategory, has a non-empty token set, and whose store holds at most
`limit_rows` taxonomy-bearing rows after the save, the just-saved entry is
scanned as its own neighbor with self-similarity 1, its category's
aggregate reaches at least 1, and the suggestion result is present. -/
theorem sm_C9_amended (sha : String → String) (ts : String) (args : SaveArgs)
    (st : Store) (c : String) (hcat : args.cat = some c) (hc : ¬(c = ""))
    (hsub : args.subcat = none)
    (htok : ¬(tokenize (args.symbol ++ " " ++ args.text) 80 = []))
    (hlim : ((save_text sha ts args st).2.texts.filter
        (fun kv => kv.2.cat.isSome || kv.2.subcat.isSome)).length ≤ 2000) :
    jaccard (tokenize (args.symbol ++ " " ++ args.text) 80)
        (tokenize (args.symbol ++ " " ++ args.text) 80) = 1 ∧
    (∃ v, alookup c
        (((taggedRows (save_text sha ts args st).2 2000).foldl
          (scanStep (tokenize (args.symbol ++ " " ++ args.text) 80) (1/10))
          ⟨[], [], []⟩).catScores) = some v ∧ 1 ≤ v) ∧
    ¬((mcp_save sha ts args st).2.1 = none) := by
  obtain ⟨row, hrow, hb, hrc, -⟩ := alookup_save_self sha ts args st
  have hself : jaccard (tokenize (args.symbol ++ " " ++ args.text) 80)
      (tokenize (args.symbol ++ " " ++ args.text) 80) = 1 := jaccard_self htok
  have hrowmem : (args.symbol, row) ∈ (save_text sha ts args st).2.texts :=
    mem_of_alookup_some hrow
  have htagged : (args.symbol, row) ∈ taggedRows (save_text sha ts args st).2 2000 := by
    rw [taggedRows, List.take_of_length_le hlim]
    refine List.mem_filter.mpr ⟨hrowmem, ?_⟩
    simp [hrc, hcat]
  obtain ⟨l1, l2, hsplit⟩ := List.append_of_mem htagged
  have htoks_row : tokenize ((args.symbol, row).1 ++ " " ++ (args.symbol, row).2.body) 80
      = tokenize (args.symbol ++ " " ++ args.text) 80 := by
    show tokenize (args.symbol ++ " " ++ row.body) 80 = _
    rw [hb]
  have hsim1 : jaccard (tokenize (args.symbol ++ " " ++ args.text) 80)
      (tokenize ((args.symbol, row).1 ++ " " ++ (args.symbol, row).2.body) 80) = 1 := by
    rw [htoks_row]
    exact hself
  have hnotlt : ¬(jaccard (tokenize (args.symbol ++ " " ++ args.text) 80)
      (tokenize ((args.symbol, row).1 ++ " " ++ (args.symbol, row).2.body) 80) < 1/10) := by
    rw [hsim1]
    norm_num
  have htr : truthy (args.symbol, row).2.cat = true := by
    show truthy row.cat = true
    rw [hrc, hcat]
    simp [truthy, hc]
  have hfold : ((taggedRows (save_text sha ts args st).2 2000).foldl
        (scanStep (tokenize (args.symbol ++ " " ++ args.text) 80) (1/10)) ⟨[], [], []⟩)
      = l2.foldl (scanStep (tokenize (args.symbol ++ " " ++ args.text) 80) (1/10))
          (scanStep (tokenize (args.symbol ++ " " ++ args.text) 80) (1/10)
            (l1.foldl (scanStep (tokenize (args.symbol ++ " " ++ args.text) 80) (1/10))
              ⟨[], [], []⟩)
            (args.symbol, row)) := by
    rw [hsplit, List.foldl_append, List.foldl_cons]
  have hnn0 : CatNonneg (l1.foldl
      (scanStep (tokenize (args.symbol ++ " " ++ args.text) 80) (1/10)) ⟨[], [], []⟩) := by
    refine catNonneg_foldl _ _ _ _ ?_
    intro k v hv
    rw [alookup_nil] at hv
    exact absurd hv (by simp)
  obtain ⟨v1, hv1, hgev1⟩ := scanStep_catScores_self
    (tokenize (args.symbol ++ " " ++ args.text) 80) (1/10) _ (args.symbol, row) hnn0 htr hnotlt
  have hkey : (args.symbol, row).2.cat.getD "" = c := by
    show row.cat.getD "" = c
    rw [hrc, hcat]
    rfl
  rw [hkey] at hv1
  obtain ⟨v, hv, hlev⟩ := foldl_catScores_mono
    (tokenize (args.symbol ++ " " ++ args.text) 80) (1/10) l2 _ c v1 hv1
  have h1v : 1 ≤ v := le_trans (le_trans (le_of_eq hsim1.symm) hgev1) hlev
  have hvfold : alookup c
      (((taggedRows (save_text sha ts args st).2 2000).foldl
        (scanStep (tokenize (args.symbol ++ " " ++ args.text) 80) (1/10))
        ⟨[], [], []⟩).catScores) = some v := by
    rw [hfold]
    exact hv
  refine ⟨hself, ⟨v, hvfold, h1v⟩, ?_⟩
  rw [mcp_save_suggestions sha ts args st hsub]
  refine suggest_taxonomy_isSome htok (List.ne_nil_of_mem htagged) ?_
  intro hnil
  rw [hnil, alookup_nil] at hvfold
  exact absurd hvfold (by simp)

/-- Counterexample for C9 as stated: the save of symbol "-", body "!"
supplies category "c" and omits the subcategory, but the combined
symbol+body has an empty token set, so the suggestion attached by the
gateway is absent. -/
theorem sm_C9_counterexample :
    (⟨"-", "!", some "c", none, none⟩ : SaveArgs).cat = some "c" ∧
    (⟨"-", "!", some "c", none, none⟩ : SaveArgs).subcat = none ∧
    (mcp_save (fun s => s) "t" ⟨"-", "!", some "c", none, none⟩ emptyStore).2.1 = none := by
  refine ⟨rfl, rfl, ?_⟩
  decide

/-- Witness for the amended C9: saving symbol "a", body "b c", category
"c1" into the empty store yields a present suggestion. -/
theorem sm_C9_witness :
    ¬((mcp_save (fun s => s) "t" ⟨"a", "b c", some "c1", none, none⟩ emptyStore).2.1
      = none) :=
  (sm_C9_amended (fun s => s) "t" ⟨"a", "b c", some "c1", none, none⟩ emptyStore "c1"
    rfl (by decide) rfl (by decide) (by decide)).2.2

/-- Witness for C10 at a concrete run: after one save carrying alias "al",
the alias's target symbol "B" has a texts row. -/
theorem sm_C10_witness :
    (alookup "B" (applySaves (fun s => s)
      [("t", ⟨"B", "b", none, none, some ["al"]⟩)] emptyStore).texts).isSome = true :=
  sm_C10 (fun s => s) [("t", ⟨"B", "b", none, none, some ["al"]⟩)] "al" "B" (by decide)

/-- Witness for C3 at a concrete run: Undo on a record for "S" leaves the
record in place and writes the record's previous taxonomy back. -/
theorem sm_C3_witness :
    (undo_step (fun s => s) "t1" "body" none (some ⟨"S", none, none, some "X", none, 1⟩)
      emptyStore).2 = some ⟨"S", none, none, some "X", none, 1⟩ :=
  (sm_C3_amended (fun s => s) "t1" "t2" "body" none
    ⟨"S", none, none, some "X", none, 1⟩ emptyStore).1

end SM
